import Mathlib

/-!
Verification of the orchestration core of the voice-input assistant.

The development shallowly embeds the Python sources:
  * `src/hotkey.py`   — global hotkey listener (combo matcher, modifier tracking)
  * `src/overlay.py`  — transcript overlay segment registry
  * `src/main.py`     — the `AppController` session orchestrator and the
                        clipboard-swap insertion sequencer
  * `src/postprocess.py` (plus the spec, for the parts of the current
    post-processing/capture modules that are not in the tree)

Machine-level concerns (Qt event-loop scheduling, real timer durations,
painting, sounds, focus handling) are elided; the state and the order of the
state mutations follow the source.
-/

namespace VoiceInput

/-! ## Combo matcher (src/hotkey.py) -/

/-- The eight physical modifier keys appearing in `_MODIFIER_MAP`. -/
inductive PhysMod
  | ctrlL | ctrlR | shiftL | shiftR | altL | altR | cmdL | cmdR
deriving DecidableEq, Repr

/-- Source `_MODIFIER_MAP`: each left/right variant maps to one canonical name. -/
def canonical : PhysMod → String
  | .ctrlL => "ctrl"
  | .ctrlR => "ctrl"
  | .shiftL => "shift"
  | .shiftR => "shift"
  | .altL => "alt"
  | .altR => "alt"
  | .cmdL => "cmd"
  | .cmdR => "cmd"

/-- A raw pynput key: Escape, a modifier variant, a `KeyCode` with a
character, a `KeyCode` with only a virtual-key code, or a named special
`Key` (such as f3 or space). -/
inductive PKey
  | esc
  | mod (m : PhysMod)
  | ch (c : String)
  | vk (n : Nat)
  | named (s : String)
deriving DecidableEq, Repr

/-- Python's `str.lower()`, written directly over the character list so
that it reduces inside the kernel. -/
def strLower (s : String) : String :=
  String.mk (s.data.map Char.toLower)

/-- Source `key_to_str`: canonical name for modifiers, lower-cased character for
`KeyCode`s with a char, `<vk>` placeholder otherwise, name for special
keys (Escape has name `"esc"`). -/
def key_to_str : PKey → String
  | .esc => "esc"
  | .mod m => canonical m
  | .ch c => strLower c
  | .vk n => "<" ++ toString n ++ ">"
  | .named s => s

/-- Membership test in `_MODIFIER_MAP`, returning the canonical name. -/
def isModifierOf : PKey → Option String
  | .mod m => some (canonical m)
  | _ => none

/-- Source `HotkeyCombo`: a set of modifier names plus an optional main key. -/
structure HotkeyCombo where
  modifiers : Finset String
  main_key : Option String
deriving DecidableEq

/-- Source `HotkeyCombo.is_valid`: the main key must be set. -/
def HotkeyCombo.valid (c : HotkeyCombo) : Bool :=
  c.main_key.isSome

/-- The Qt signals a key event can emit (`HotkeySignals`). -/
inductive HotkeySignal
  | cancel_requested
  | key_event (k : PKey) (pressed : Bool)
  | toggle_settings
  | hotkey_pressed
  | hotkey_released
  | secondary_hotkey_pressed
  | secondary_hotkey_released
  | correction_hotkey_pressed
deriving DecidableEq, Repr

/-- Mutable state of `HotkeyListener`. -/
structure ListenerState where
  primaryCombo : Option HotkeyCombo
  secondaryCombo : Option HotkeyCombo
  correctionCombo : Option HotkeyCombo
  activeModifiers : Finset String
  primaryDown : Bool
  secondaryDown : Bool
  captureMode : Bool
deriving DecidableEq

/-- Source `HotkeyListener._matches`: the combo is present and valid, the key
string equals the main key, and the held modifier set is *exactly* the
combo's modifier set. -/
def matchesCombo (activeMods : Finset String) (combo : Option HotkeyCombo)
    (keyStr : String) : Bool :=
  match combo with
  | none => false
  | some c =>
    match c.main_key with
    | none => false
    | some mk => decide (keyStr = mk) && decide (activeMods = c.modifiers)

/-- The hard-coded settings chord modifier set (ctrl+shift+alt). -/
def settingsChordMods : Finset String := {"ctrl", "shift", "alt"}

/-- Tail of `HotkeyListener._on_press` after the Escape / capture-mode /
modifier branches: settings chord first, then primary, secondary,
correction, in order, with the primary/secondary down-flags guarding
repeat fires. -/
def onPressMain (s : ListenerState) (keyStr : String) :
    ListenerState × List HotkeySignal :=
  if keyStr = "q" ∧ s.activeModifiers = settingsChordMods then
    (s, [HotkeySignal.toggle_settings])
  else if matchesCombo s.activeModifiers s.primaryCombo keyStr = true ∧
      s.primaryDown = false then
    ({ s with primaryDown := true }, [HotkeySignal.hotkey_pressed])
  else if matchesCombo s.activeModifiers s.secondaryCombo keyStr = true ∧
      s.secondaryDown = false then
    ({ s with secondaryDown := true }, [HotkeySignal.secondary_hotkey_pressed])
  else if matchesCombo s.activeModifiers s.correctionCombo keyStr = true then
    (s, [HotkeySignal.correction_hotkey_pressed])
  else
    (s, [])

/-- Source `HotkeyListener._on_press`. -/
def onPress (s : ListenerState) (key : PKey) :
    ListenerState × List HotkeySignal :=
  if key = PKey.esc then (s, [HotkeySignal.cancel_requested])
  else if s.captureMode = true then (s, [HotkeySignal.key_event key true])
  else
    match isModifierOf key with
    | some c => ({ s with activeModifiers := insert c s.activeModifiers }, [])
    | none => onPressMain s (key_to_str key)

/-- On release, `key_str == combo.main_key` with an `Optional` main key. -/
def releaseMatches (combo : Option HotkeyCombo) (keyStr : String) : Bool :=
  match combo with
  | none => false
  | some c => decide (c.main_key = some keyStr)

/-- Source `HotkeyListener._on_release`.  Note the two final checks are
sequential `if`s in the source, not `elif`s. -/
def onRelease (s : ListenerState) (key : PKey) :
    ListenerState × List HotkeySignal :=
  if s.captureMode = true then (s, [HotkeySignal.key_event key false])
  else
    match isModifierOf key with
    | some c =>
        ({ s with activeModifiers := s.activeModifiers.erase c }, [])
    | none =>
      let keyStr := key_to_str key
      let p := s.primaryDown && releaseMatches s.primaryCombo keyStr
      let s1 := if p then { s with primaryDown := false } else s
      let e1 := if p then [HotkeySignal.hotkey_released] else []
      let q := s.secondaryDown && releaseMatches s.secondaryCombo keyStr
      let s2 := if q then { s1 with secondaryDown := false } else s1
      let e2 := if q then [HotkeySignal.secondary_hotkey_released] else []
      (s2, e1 ++ e2)

/-! ## Transcript overlay segment registry (src/overlay.py, `TranscriptOverlay`) -/

/-- Segment lifecycle state (`"active"` / `"processing"` / `"error"`). -/
inductive SegState
  | active | processing | error
deriving DecidableEq, Repr

/-- One entry of `TranscriptOverlay._segments`. -/
structure Segment where
  id : Int
  text : String
  state : SegState
deriving DecidableEq, Repr

/-- The registry-relevant state of `TranscriptOverlay`: the segment list,
the `_next_id` counter and whether the widget is shown.  (Spinner and
cursor-follow timers, sizing and painting are elided.) -/
structure OverlayState where
  segments : List Segment
  nextId : Int
  visible : Bool
deriving DecidableEq, Repr

/-- The overlay as constructed: no segments, id counter 0, hidden. -/
def initOverlay : OverlayState := { segments := [], nextId := 0, visible := false }

/-- Source `TranscriptOverlay.show_at_cursor`: append a new empty active segment
and show the widget if hidden. -/
def show_at_cursor (o : OverlayState) : OverlayState :=
  { segments := o.segments ++ [{ id := o.nextId, text := "", state := SegState.active }],
    nextId := o.nextId + 1,
    visible := true }

/-- Source `TranscriptOverlay.show_error_at_cursor`: append an error segment and
show the widget if hidden (the auto-dismiss timer later delivers a
`complete_segment` for it). -/
def show_error_at_cursor (o : OverlayState) (msg : String) : OverlayState :=
  { segments := o.segments ++ [{ id := o.nextId, text := msg, state := SegState.error }],
    nextId := o.nextId + 1,
    visible := true }

/-- Helper for `set_text`: update the *last* element's text when, and only
when, that last element is in the active state (`self._segments and
self._segments[-1]["state"] == "active"`). -/
def setLastText : List Segment → String → List Segment
  | [], _ => []
  | [s], t => if s.state = SegState.active then [{ s with text := t }] else [s]
  | s :: s' :: rest, t => s :: setLastText (s' :: rest) t

/-- Source `TranscriptOverlay.set_text`. -/
def set_text (o : OverlayState) (t : String) : OverlayState :=
  { o with segments := setLastText o.segments t }

/-- Helper for `freeze_active_segment`, scanning the *reversed* segment
list: the first active segment found is switched to processing and its id
returned; if none is found the sentinel `-1` is returned. -/
def freezeRev : List Segment → List Segment × Int
  | [] => ([], -1)
  | s :: rest =>
    if s.state = SegState.active then
      ({ s with state := SegState.processing } :: rest, s.id)
    else
      let r := freezeRev rest
      (s :: r.1, r.2)

/-- Source `TranscriptOverlay.freeze_active_segment`: `for seg in
reversed(self._segments)`, mark the first active one as processing and
return its id, or `-1` if no active segment exists. -/
def freeze_active_segment (o : OverlayState) : OverlayState × Int :=
  let r := freezeRev o.segments.reverse
  ({ o with segments := r.1.reverse }, r.2)

/-- Source `TranscriptOverlay.complete_segment`: drop the segment with the given
id; hide the widget when no segments remain. -/
def complete_segment (o : OverlayState) (segId : Int) : OverlayState :=
  let segs := o.segments.filter (fun s => s.id ≠ segId)
  if segs = [] then { o with segments := segs, visible := false }
  else { o with segments := segs }

/-- Source `TranscriptOverlay.dismiss`: unconditionally clear all segments and
hide. -/
def dismiss (o : OverlayState) : OverlayState :=
  { o with segments := [], visible := false }

/-- The public registry operations of the overlay. -/
inductive OverlayOp
  | showAt
  | showError (msg : String)
  | setText (t : String)
  | freeze
  | complete (segId : Int)
  | dismissAll

/-- Apply one public operation (discarding the id `freeze` returns). -/
def applyOverlayOp (o : OverlayState) : OverlayOp → OverlayState
  | .showAt => show_at_cursor o
  | .showError msg => show_error_at_cursor o msg
  | .setText t => set_text o t
  | .freeze => (freeze_active_segment o).1
  | .complete segId => complete_segment o segId
  | .dismissAll => dismiss o

/-- Overlay states reachable from the freshly constructed overlay through
its public operations. -/
inductive OverlayReachable : OverlayState → Prop
  | init : OverlayReachable initOverlay
  | step {o : OverlayState} (op : OverlayOp) :
      OverlayReachable o → OverlayReachable (applyOverlayOp o op)

/-- Registry invariant: hidden when empty, ids are non-negative, below the
id counter, and pairwise distinct. -/
def overlayInv (o : OverlayState) : Prop :=
  (o.segments = [] → o.visible = false) ∧
  (∀ s ∈ o.segments, 0 ≤ s.id ∧ s.id < o.nextId) ∧
  o.segments.Pairwise (fun a b => a.id ≠ b.id) ∧
  0 ≤ o.nextId

/-! ## Session orchestrator (src/main.py, `AppController`)

The clipboard is an association list of `(format, data)` pairs; the
snapshot loop over `source_mime.formats()` is modelled by copying that
list.  Timed callbacks created through `_schedule_timer` are modelled as
data (the callback plus the generation value its closure captured);
firing a timer removes it from the pending list and runs the callback
against the *current* state, re-reading the live generation, exactly as
the closures do. -/

/-- A clipboard snapshot: every exposed format with its data. -/
abbrev Clipboard : Type := List (String × String)

/-- Source `clipboard.setText(text)`: the clipboard afterwards exposes just the
plain-text format holding `text`. -/
def clipboardSetText (text : String) : Clipboard := [("text/plain", text)]

/-- A synthesized keyboard event (`self._kb.press` / `self._kb.release`);
keys are named by their pynput name (`"ctrl"`, `"cmd"`, `"v"`). -/
inductive KbEvent
  | press (k : String)
  | release (k : String)
deriving DecidableEq, Repr

/-- A pending `_schedule_timer` callback: the paste step or the
clipboard-restore step, each closing over the generation captured when it
was scheduled (and, for restore, over the saved clipboard snapshot). -/
inductive TimedAction
  | pasteStep (generation : Nat)
  | restoreStep (generation : Nat) (saved : Clipboard)
deriving DecidableEq

/-- One `self._active_job` bundle: the streaming worker thread with its
single-slot result box (identified by a fresh id), the audio queue it
streams from, and the mode tag. -/
structure SessionJob where
  threadId : Nat
  queue : Nat
  mode : String
deriving DecidableEq, Repr

/-- Arguments of a spawned `_wait_for_streaming` thread, captured at
`on_stop_recording` time: the job's thread/result box (None when no job
was active), the post-processing prompt, the frozen segment id, the
generation read at stop time, and the mode. -/
structure WaitTask where
  threadId : Option Nat
  prompt : String
  segId : Int
  generation : Nat
  mode : String
deriving DecidableEq, Repr

/-- The orchestration-relevant state of `AppController` (plus the bits of
`MainWindow` and the recorder it reads).  `pendingFinalizers` are the
`QTimer.singleShot(200, …finalize(captured_queue))` calls — deliberately
*not* part of `pendingTimers`, since the source does not route them
through `_schedule_timer` and Escape does not cancel them.  `heldMods`
mirrors `window._hotkey_listener._active_modifiers`, read live by the
paste step.  Audio queues are fresh handles numbered by `nextQueue`;
`Modelled from the spec:` the capture collaborator (`recorder.py` is not
under src/) exposes a fresh push-style audio feed per `start()`. -/
structure AppState where
  generation : Nat
  isRecording : Bool
  activeJob : Option SessionJob
  overlay : OverlayState
  clipboard : Clipboard
  pendingTimers : List TimedAction
  pendingFinalizers : List Nat
  waitTasks : List WaitTask
  nextThread : Nat
  nextQueue : Nat
  currentQueue : Nat
  apiKey : String
  postprocPrompt : String
  reviewVisible : Bool
  correctionVisible : Bool
  heldMods : Finset String
deriving DecidableEq

/-- Modelled from the spec: the capture collaborator — `recorder.py` is
not under src/, only its caller is.  `Capture.start()` begins audio
acquisition and exposes a fresh push-style audio feed
(`recorder.audio_queue`); feed handles are numbered by the orchestrator's
`nextQueue` counter, so each `start()` yields a handle distinct from all
earlier ones. -/
def recorderStart (nextQueue : Nat) : Nat := nextQueue

/-- Source `_PASTE_MODIFIER` / `paste_mod_str`: cmd on macOS, ctrl elsewhere. -/
def pasteModStr (macos : Bool) : String :=
  if macos then "cmd" else "ctrl"

/-- The synthetic paste keystrokes of `_do_paste`: if the platform paste
modifier is already physically held (it may be part of the hotkey combo)
only `v` is pressed and released; otherwise the modifier wraps the `v`
press/release. -/
def doPasteEvents (macos : Bool) (mods : Finset String) : List KbEvent :=
  let needsModifier := pasteModStr macos ∉ mods
  (if needsModifier then [KbEvent.press (pasteModStr macos)] else []) ++
    [KbEvent.press ("v"), KbEvent.release ("v")] ++
    (if needsModifier then [KbEvent.release (pasteModStr macos)] else [])

/-- Run one timed callback against the current state: both `_do_paste` and
`_restore` first re-read the live generation and skip entirely when the
captured one is stale. -/
def fireTimedAction (macos : Bool) (s : AppState) :
    TimedAction → AppState × List KbEvent
  | .pasteStep g =>
      if g ≠ s.generation then (s, [])
      else (s, doPasteEvents macos s.heldMods)
  | .restoreStep g saved =>
      if g ≠ s.generation then (s, [])
      else ({ s with clipboard := saved }, [])

/-- Source `AppController._on_transcription_done`: discard stale generations;
remove the segment; review mode hands off to the review window; paste
mode snapshots the clipboard, sets it to the text, and schedules the
paste and restore steps (closing over the delivered generation and the
snapshot). -/
def on_transcription_done (s : AppState) (text : String) (segId : Int)
    (generation : Nat) (mode : String) : AppState × List KbEvent :=
  if generation ≠ s.generation then (s, [])
  else
    let overlay := complete_segment s.overlay segId
    if mode = "review" then
      ({ s with overlay := overlay, reviewVisible := true }, [])
    else
      let saved : Clipboard := s.clipboard
      ({ s with
          overlay := overlay,
          clipboard := clipboardSetText text,
          pendingTimers := s.pendingTimers ++
            [TimedAction.pasteStep generation,
             TimedAction.restoreStep generation saved] }, [])

/-- Source `AppController._on_transcription_failed`: discard stale generations,
otherwise just remove the segment. -/
def on_transcription_failed (s : AppState) (segId : Int)
    (generation : Nat) : AppState :=
  if generation ≠ s.generation then s
  else { s with overlay := complete_segment s.overlay segId }

/-- Source `AppController.on_cancel_all`: bump the generation, clear the
recording flag and job, hide the review window, dismiss the overlay and
stop every `_schedule_timer` callback.  (The recorder stop and the idle
status report are collaborator effects.)  The `singleShot` finalizers are
*not* cancelled — the source never tracks them. -/
def on_cancel_all (s : AppState) : AppState :=
  { s with
      generation := s.generation + 1,
      isRecording := false,
      activeJob := none,
      reviewVisible := false,
      overlay := dismiss s.overlay,
      pendingTimers := [] }

/-- Source `AppController.on_start_recording`: ignored while the correction
window is open; an open review window turns the press into a review
insert (which bumps the generation and schedules a paste delivery);
ignored while already recording; a missing API key surfaces an error
segment and aborts; otherwise a fresh capture feed and streaming worker
are started, a new active segment appended, and the job stored. -/
def on_start_recording (s : AppState) (mode : String) : AppState :=
  if s.correctionVisible = true then s
  else if s.reviewVisible = true then
    { s with generation := s.generation + 1, reviewVisible := false }
  else if s.isRecording = true then s
  else if s.apiKey = "" then
    let msg := "API key missing - open Settings and paste your Google Cloud API key"
    { s with overlay := show_error_at_cursor s.overlay msg }
  else
    let queue := recorderStart s.nextQueue
    { s with
        overlay := show_at_cursor s.overlay,
        isRecording := true,
        currentQueue := queue,
        nextQueue := s.nextQueue + 1,
        nextThread := s.nextThread + 1,
        activeJob := some { threadId := s.nextThread, queue := queue, mode := mode } }

/-- Source `AppController.on_stop_recording`: ignored when not recording;
otherwise clear the flag, capture the *current* audio queue before the
200 ms tail delay and schedule its finalizer, freeze the latest active
segment, snapshot the current job's thread/result box and mode, and
spawn the finalize-wait thread with the generation read now. -/
def on_stop_recording (s : AppState) : AppState :=
  if s.isRecording = false then s
  else
    let capturedQueue := s.currentQueue
    let frozen := freeze_active_segment s.overlay
    let threadRef := s.activeJob.map (fun j => j.threadId)
    let mode := match s.activeJob with
      | some j => j.mode
      | none => "paste"
    { s with
        isRecording := false,
        overlay := frozen.1,
        pendingFinalizers := s.pendingFinalizers ++ [capturedQueue],
        waitTasks := s.waitTasks ++
          [{ threadId := threadRef, prompt := s.postprocPrompt,
             segId := frozen.2, generation := s.generation, mode := mode }] }

/-- The orchestrator-level events the UI-affine context can process:
logical hotkey events, result deliveries from finalize-wait threads, and
the firing of a pending timed callback (which first removes itself from
the pending list, as `_schedule_timer._run` does). -/
inductive AppOp
  | startRecording (mode : String)
  | stopRecording
  | cancelAll
  | transcriptionDone (text : String) (segId : Int) (generation : Nat) (mode : String)
  | transcriptionFailed (segId : Int) (generation : Nat)
  | fireTimer (i : Nat)

/-- One step of the orchestrator (effects discarded). -/
def stepOp (macos : Bool) (s : AppState) : AppOp → AppState
  | .startRecording mode => on_start_recording s mode
  | .stopRecording => on_stop_recording s
  | .cancelAll => on_cancel_all s
  | .transcriptionDone text segId generation mode =>
      (on_transcription_done s text segId generation mode).1
  | .transcriptionFailed segId generation =>
      on_transcription_failed s segId generation
  | .fireTimer i =>
      match s.pendingTimers.get? i with
      | none => s
      | some a =>
          (fireTimedAction macos
            { s with pendingTimers := s.pendingTimers.eraseIdx i } a).1

/-- Run a list of orchestrator events. -/
def runOps (macos : Bool) (s : AppState) (l : List AppOp) : AppState :=
  l.foldl (stepOp macos) s

/-! ## Finalize-wait and post-processing (src/main.py `_wait_for_streaming`,
src/postprocess.py) -/

/-- Modelled from the spec: the post-processing collaborator
`postprocess(text, prompt, corrections_map) -> text`.  The current
three-argument post-processing module is not under src/ — only its caller
(`main.py` line 456) and an earlier two-argument iteration
(`src/postprocess.py`) are.  Per the spec it never raises fatal errors
and returns the original text on any failure; following the earlier
iteration, a blank prompt or transcript short-circuits, and a blank
(stripped) model response also falls back to the original.  `outcome`
abstracts the network call: `none` means the call raised or failed,
`some r` is the model's raw response text. -/
def postprocess (transcript prompt : String)
    (correctionsMap : List (String × String)) (outcome : Option String) : String :=
  if prompt.trim = "" ∨ transcript = "" then transcript
  else
    match outcome with
    | none => transcript
    | some r => if r.trim = "" then transcript else r.trim

/-- The outcome a finalize-wait thread emits: silently dropped (stale
generation), `transcription_failed`, or `transcription_done`. -/
inductive StreamOutcome
  | dropped
  | failed (msg : String) (segId : Int) (generation : Nat)
  | done (text : String) (segId : Int) (generation : Nat) (mode : String)
deriving DecidableEq, Repr

/-- Source `AppController._wait_for_streaming` after the `thread.join()`:
`resultBox` is the streaming worker's single-slot result cell, `g1` and
`g2` the live generation values read at the two checkpoints, and
`ppOutcome` the post-processing collaborator's behaviour on this call.
An empty or missing transcript fails; a configured (non-empty) prompt
routes the text through `postprocess(text, prompt, corrections_map)`. -/
def wait_for_streaming (resultBox : Option String) (prompt : String)
    (correctionsMap : List (String × String)) (segId : Int)
    (generation : Nat) (mode : String) (g1 g2 : Nat)
    (ppOutcome : Option String) : StreamOutcome :=
  if generation ≠ g1 then StreamOutcome.dropped
  else
    match resultBox with
    | none => StreamOutcome.failed ("No transcription returned.") segId generation
    | some t =>
      if t = "" then StreamOutcome.failed ("No transcription returned.") segId generation
      else
        let t2 := if prompt ≠ "" then postprocess t prompt correctionsMap ppOutcome else t
        if generation ≠ g2 then StreamOutcome.dropped
        else StreamOutcome.done t2 segId generation mode

/-! ## Modifier tracking versus physical key state (for src/hotkey.py)

`physStep` is the ground truth: the set of physical modifier keys the OS
currently reports as held.  `listenerModStep` runs the listener's own
press/release handlers on the same event. -/

/-- A press or release of one physical modifier variant. -/
inductive ModEvent
  | press (m : PhysMod)
  | release (m : PhysMod)

/-- Ground truth: physically held modifier variants after one event. -/
def physStep (p : Finset PhysMod) : ModEvent → Finset PhysMod
  | .press m => insert m p
  | .release m => p.erase m

/-- The listener's state after one modifier event. -/
def listenerModStep (s : ListenerState) : ModEvent → ListenerState
  | .press m => (onPress s (PKey.mod m)).1
  | .release m => (onRelease s (PKey.mod m)).1

/-- Run a modifier event sequence through the listener. -/
def runMods (s : ListenerState) (es : List ModEvent) : ListenerState :=
  es.foldl listenerModStep s

/-- Run a modifier event sequence through the physical ground truth. -/
def physRun (p : Finset PhysMod) (es : List ModEvent) : Finset PhysMod :=
  es.foldl physStep p

/-- A release event is unambiguous when no *other* variant of the same
canonical modifier is physically held at that moment. -/
def SafeRelease (p : Finset PhysMod) : ModEvent → Prop
  | .press _ => True
  | .release m => ∀ m' ∈ p, canonical m' = canonical m → m' = m

/-- Every release along the run is unambiguous. -/
def SafeRun : Finset PhysMod → List ModEvent → Prop
  | _, [] => True
  | p, e :: es => SafeRelease p e ∧ SafeRun (physStep p e) es

/-! ## Concrete sample states (used by witnesses and counterexamples) -/

/-- A listener with no combos configured and nothing held. -/
def listener0 : ListenerState :=
  { primaryCombo := none, secondaryCombo := none, correctionCombo := none,
    activeModifiers := ∅, primaryDown := false, secondaryDown := false,
    captureMode := false }

/-- A listener whose primary combo is configured as ctrl+shift+alt+q —
exactly the hard-coded settings chord — with those modifiers held. -/
def listenerQ : ListenerState :=
  { listener0 with
      primaryCombo := some { modifiers := settingsChordMods, main_key := some ("q") },
      activeModifiers := settingsChordMods }

/-- A listener with primary combo ctrl+t and ctrl held. -/
def listenerT : ListenerState :=
  { listener0 with
      primaryCombo := some { modifiers := {"ctrl"}, main_key := some ("t") },
      activeModifiers := {"ctrl"} }

/-- Overlay holding one active segment then one error segment: the
most-recent *active* segment is not the last segment. -/
def overlayAE : OverlayState :=
  show_error_at_cursor (show_at_cursor initOverlay) ("boom")

/-- Overlay holding a single processing segment (a recording that was
started and then stopped). -/
def overlayP : OverlayState :=
  (freeze_active_segment (show_at_cursor initOverlay)).1

/-- An idle orchestrator state with a configured API key, something on
the clipboard and ctrl physically held. -/
def app0 : AppState :=
  { generation := 5, isRecording := false, activeJob := none,
    overlay := initOverlay, clipboard := [("text/plain", "old")],
    pendingTimers := [], pendingFinalizers := [], waitTasks := [],
    nextThread := 0, nextQueue := 0, currentQueue := 0,
    apiKey := "k", postprocPrompt := "p", reviewVisible := false,
    correctionVisible := false, heldMods := {"ctrl"} }

/-! # Theorems -/

/-- On any failing collaborator outcome (a raised exception, a failed
call, or a blank response) `postprocess` returns the transcript
untouched. -/
theorem postprocess_failure_keeps_original (t prompt : String)
    (cm : List (String × String)) (o : Option String)
    (hfail : o = none ∨ ∃ r, o = some r ∧ r.trim = "") :
    postprocess t prompt cm o = t := by
  unfold postprocess
  rcases hfail with rfl | ⟨r, rfl, hrt⟩
  · split
    · rfl
    · rfl
  · split
    · rfl
    · simp [hrt]

/-- C3: in a finalize-wait run with a configured post-processing prompt
and non-empty streamed text, a raising or failing post-processing
collaborator — invoked as `postprocess(text, prompt, corrections_map)` —
still results in a success outcome carrying the original unprocessed
transcript, never an error. -/
theorem wait_postproc_failure_emits_original (t prompt : String)
    (cm : List (String × String)) (segId : Int) (g : Nat) (mode : String)
    (o : Option String) (hp : prompt ≠ "") (ht : t ≠ "")
    (hfail : o = none ∨ ∃ r, o = some r ∧ r.trim = "") :
    wait_for_streaming (some t) prompt cm segId g mode g g o =
      StreamOutcome.done t segId g mode := by
  unfold wait_for_streaming
  simp [ht, hp, postprocess_failure_keeps_original t prompt cm o hfail]

/-- Witness for C3 at a concrete failing call. -/
theorem wait_postproc_failure_emits_original_witness :
    wait_for_streaming (some ("hello")) ("Fix grammar") [] 0 3 ("paste") 3 3 none =
      StreamOutcome.done ("hello") 0 3 ("paste") :=
  wait_postproc_failure_emits_original ("hello") ("Fix grammar") [] 0 3 ("paste")
    none (by decide) (by decide) (Or.inl rfl)

/-- C8: when the paste step fires with a non-stale generation, the
sequencer synthesizes only a `v` press/release if the platform paste
modifier is already in the tracked held-modifier set, and a full
modifier-wrapped sequence otherwise. -/
theorem do_paste_modifier_handling (macos : Bool) (s : AppState) (g : Nat)
    (hg : g = s.generation) :
    (pasteModStr macos ∈ s.heldMods →
      fireTimedAction macos s (TimedAction.pasteStep g) =
        (s, [KbEvent.press ("v"), KbEvent.release ("v")]))
    ∧ (pasteModStr macos ∉ s.heldMods →
      fireTimedAction macos s (TimedAction.pasteStep g) =
        (s, [KbEvent.press (pasteModStr macos), KbEvent.press ("v"),
             KbEvent.release ("v"), KbEvent.release (pasteModStr macos)])) := by
  subst hg
  constructor
  · intro h
    simp [fireTimedAction, doPasteEvents, h]
  · intro h
    simp [fireTimedAction, doPasteEvents, h]

/-- Witness for C8: ctrl held on a non-macOS platform suppresses the
synthetic modifier press/release. -/
theorem do_paste_modifier_handling_witness :
    fireTimedAction false app0 (TimedAction.pasteStep 5) =
      (app0, [KbEvent.press ("v"), KbEvent.release ("v")]) :=
  (do_paste_modifier_handling false app0 5 rfl).1 (by decide)

/-- Looking up the element right after a list yields it. -/
theorem get_after_append {α : Type} (l : List α) (a : α) (r : List α) :
    (l ++ a :: r).get? l.length = some a := by
  induction l with
  | nil => rfl
  | cons x xs ih => simpa using ih

/-- Erasing the element right after a list drops exactly it. -/
theorem eraseIdx_after_append {α : Type} (l : List α) (a : α) (r : List α) :
    (l ++ a :: r).eraseIdx l.length = l ++ r := by
  induction l with
  | nil => rfl
  | cons x xs ih => simpa using ih

/-- C6: for an insertion sequence not interrupted by cancellation (the
generation is unchanged throughout), firing the scheduled paste step and
then the scheduled restore step leaves the clipboard equal to the
pre-sequence snapshot, across all formats it exposed at snapshot time,
and consumes both scheduled steps. -/
theorem clipboard_roundtrip_restores_snapshot (macos : Bool) (s : AppState)
    (text : String) (segId : Int) :
    (stepOp macos
        (stepOp macos (on_transcription_done s text segId s.generation ("paste")).1
          (AppOp.fireTimer s.pendingTimers.length))
        (AppOp.fireTimer s.pendingTimers.length)).clipboard = s.clipboard
    ∧ (stepOp macos
        (stepOp macos (on_transcription_done s text segId s.generation ("paste")).1
          (AppOp.fireTimer s.pendingTimers.length))
        (AppOp.fireTimer s.pendingTimers.length)).pendingTimers = s.pendingTimers := by
  have hmode : ("paste" : String) ≠ "review" := by decide
  have h1 : (on_transcription_done s text segId s.generation ("paste")).1 =
      { s with
          overlay := complete_segment s.overlay segId,
          clipboard := clipboardSetText text,
          pendingTimers := s.pendingTimers ++
            [TimedAction.pasteStep s.generation,
             TimedAction.restoreStep s.generation s.clipboard] } := by
    simp [on_transcription_done, hmode]
  rw [h1]
  simp only [stepOp, get_after_append, eraseIdx_after_append, fireTimedAction]
  simp [fireTimedAction]
  simpa using eraseIdx_after_append s.pendingTimers
    (TimedAction.restoreStep s.generation s.clipboard) []

/-- C5: in a press-release-press sequence whose second press falls inside
the stop-time grace period, the finalize action and the finalize-wait
task operate on the audio feed and session job snapshotted at stop time:
the scheduled finalizer carries the first session's feed handle, the wait
task carries the first session's thread and mode, and the immediately
restarted session gets a distinct fresh feed and job, leaving both
snapshots untouched. -/
theorem stop_recording_snapshots_session (s : AppState) (m1 m2 : String)
    (hrec : s.isRecording = false) (hrev : s.reviewVisible = false)
    (hcor : s.correctionVisible = false) (hkey : s.apiKey ≠ "") :
    (on_stop_recording (on_start_recording s m1)).pendingFinalizers =
        s.pendingFinalizers ++ [s.nextQueue]
    ∧ (on_stop_recording (on_start_recording s m1)).waitTasks =
        s.waitTasks ++
          [{ threadId := some s.nextThread, prompt := s.postprocPrompt,
             segId := (freeze_active_segment (on_start_recording s m1).overlay).2,
             generation := s.generation, mode := m1 }]
    ∧ (on_start_recording (on_stop_recording (on_start_recording s m1)) m2).currentQueue =
        s.nextQueue + 1
    ∧ (on_start_recording (on_stop_recording (on_start_recording s m1)) m2).currentQueue ≠
        s.nextQueue
    ∧ (on_start_recording (on_stop_recording (on_start_recording s m1)) m2).activeJob =
        some { threadId := s.nextThread + 1, queue := s.nextQueue + 1, mode := m2 }
    ∧ (on_start_recording (on_stop_recording (on_start_recording s m1)) m2).pendingFinalizers =
        (on_stop_recording (on_start_recording s m1)).pendingFinalizers
    ∧ (on_start_recording (on_stop_recording (on_start_recording s m1)) m2).waitTasks =
        (on_stop_recording (on_start_recording s m1)).waitTasks := by
  simp [on_start_recording, on_stop_recording, recorderStart, hrec, hrev, hcor, hkey]

/-- Witness for C5 from the idle sample state. -/
theorem stop_recording_snapshots_session_witness :
    (on_stop_recording (on_start_recording app0 ("paste"))).pendingFinalizers =
        app0.pendingFinalizers ++ [app0.nextQueue]
    ∧ (on_stop_recording (on_start_recording app0 ("paste"))).waitTasks =
        app0.waitTasks ++
          [{ threadId := some app0.nextThread, prompt := app0.postprocPrompt,
             segId := (freeze_active_segment (on_start_recording app0 ("paste")).overlay).2,
             generation := app0.generation, mode := "paste" }]
    ∧ (on_start_recording (on_stop_recording (on_start_recording app0 ("paste"))) ("review")).currentQueue =
        app0.nextQueue + 1
    ∧ (on_start_recording (on_stop_recording (on_start_recording app0 ("paste"))) ("review")).currentQueue ≠
        app0.nextQueue
    ∧ (on_start_recording (on_stop_recording (on_start_recording app0 ("paste"))) ("review")).activeJob =
        some { threadId := app0.nextThread + 1, queue := app0.nextQueue + 1, mode := "review" }
    ∧ (on_start_recording (on_stop_recording (on_start_recording app0 ("paste"))) ("review")).pendingFinalizers =
        (on_stop_recording (on_start_recording app0 ("paste"))).pendingFinalizers
    ∧ (on_start_recording (on_stop_recording (on_start_recording app0 ("paste"))) ("review")).waitTasks =
        (on_stop_recording (on_start_recording app0 ("paste"))).waitTasks :=
  stop_recording_snapshots_session app0 ("paste") ("review") rfl rfl rfl (by decide)

/-- No orchestrator event ever decreases the generation counter. -/
theorem generation_mono (macos : Bool) (s : AppState) (op : AppOp) :
    s.generation ≤ (stepOp macos s op).generation := by
  cases op with
  | startRecording mode =>
    simp only [stepOp, on_start_recording]
    split_ifs <;> simp
  | stopRecording =>
    simp only [stepOp, on_stop_recording]
    split_ifs <;> simp
  | cancelAll =>
    simp [stepOp, on_cancel_all]
  | transcriptionDone text segId generation mode =>
    simp only [stepOp, on_transcription_done]
    split_ifs <;> simp
  | transcriptionFailed segId generation =>
    simp only [stepOp, on_transcription_failed]
    split_ifs <;> simp
  | fireTimer i =>
    simp only [stepOp]
    split
    · exact le_refl _
    · rename_i a _
      cases a with
      | pasteStep g =>
        simp only [fireTimedAction]
        split_ifs <;> simp
      | restoreStep g saved =>
        simp only [fireTimedAction]
        split_ifs <;> simp

/-- Generation monotonicity extends to whole event runs. -/
theorem generation_mono_run (macos : Bool) (s : AppState) (l : List AppOp) :
    s.generation ≤ (runOps macos s l).generation := by
  induction l generalizing s with
  | nil => exact le_refl _
  | cons op l ih =>
    exact le_trans (generation_mono macos s op) (ih (stepOp macos s op))

/-- C1: once `cancel_all()` has run, any previously-in-flight result —
success or failure, carrying a generation captured before the cancel —
is delivered with no effect whatsoever, however many further events
intervene: the delivery handlers return the state unchanged (so the
segment list and clipboard are untouched and nothing new is scheduled),
a stale paste or restore step refuses to fire, and a finalize-wait
thread reaching its generation checkpoint drops its result silently. -/
theorem cancel_all_blocks_stale_delivery (macos : Bool) (s : AppState)
    (g : Nat) (ops : List AppOp) (hg : g ≤ s.generation) :
    (∀ text segId mode,
      on_transcription_done (runOps macos (on_cancel_all s) ops) text segId g mode =
        (runOps macos (on_cancel_all s) ops, []))
    ∧ (∀ segId,
      on_transcription_failed (runOps macos (on_cancel_all s) ops) segId g =
        runOps macos (on_cancel_all s) ops)
    ∧ fireTimedAction macos (runOps macos (on_cancel_all s) ops)
        (TimedAction.pasteStep g) = (runOps macos (on_cancel_all s) ops, [])
    ∧ (∀ saved,
      fireTimedAction macos (runOps macos (on_cancel_all s) ops)
        (TimedAction.restoreStep g saved) = (runOps macos (on_cancel_all s) ops, []))
    ∧ (∀ rb prompt cm segId mode g2 pp,
      wait_for_streaming rb prompt cm segId g mode
        (runOps macos (on_cancel_all s) ops).generation g2 pp =
          StreamOutcome.dropped) := by
  have h1 : s.generation + 1 ≤ (on_cancel_all s).generation := by
    simp [on_cancel_all]
  have h2 := generation_mono_run macos (on_cancel_all s) ops
  have hne : g ≠ (runOps macos (on_cancel_all s) ops).generation := by omega
  refine ⟨?_, ?_, ?_, ?_, ?_⟩
  · intro text segId mode
    simp [on_transcription_done, hne]
  · intro segId
    simp [on_transcription_failed, hne]
  · simp [fireTimedAction, hne]
  · intro saved
    simp [fireTimedAction, hne]
  · intro rb prompt cm segId mode g2 pp
    simp [wait_for_streaming, hne]

/-- Witness for C1: a result of the pre-cancel generation delivered right
after the cancel changes nothing. -/
theorem cancel_all_blocks_stale_delivery_witness :
    on_transcription_done (runOps false (on_cancel_all app0) []) ("x") 0 5 ("paste") =
      (runOps false (on_cancel_all app0) [], []) :=
  (cancel_all_blocks_stale_delivery false app0 5 [] (by decide)).1 ("x") 0 ("paste")

/-- Freezing the latest active segment permutes no ids. -/
theorem freezeRev_map_id (l : List Segment) :
    ((freezeRev l).1).map (fun s => s.id) = l.map (fun s => s.id) := by
  induction l with
  | nil => rfl
  | cons s rest ih =>
    simp only [freezeRev]
    split
    · simp
    · simp [ih]

/-- Source `set_text` permutes no ids. -/
theorem setLastText_map_id (l : List Segment) (t : String) :
    (setLastText l t).map (fun s => s.id) = l.map (fun s => s.id) := by
  induction l with
  | nil => rfl
  | cons s rest ih =>
    cases rest with
    | nil =>
      simp only [setLastText]
      split <;> simp
    | cons s' rest' =>
      simp only [setLastText, List.map_cons]
      rw [ih]
      simp

/-- Source `complete_segment` filters the segment list and nothing else. -/
theorem complete_segment_segments (o : OverlayState) (segId : Int) :
    (complete_segment o segId).segments =
      o.segments.filter (fun s => s.id ≠ segId) := by
  simp only [complete_segment]
  split
  · rfl
  · rfl

/-- Source `complete_segment` keeps the id counter. -/
theorem complete_segment_nextId (o : OverlayState) (segId : Int) :
    (complete_segment o segId).nextId = o.nextId := by
  simp only [complete_segment]
  split
  · rfl
  · rfl

/-- The registry invariant is preserved by every public operation. -/
theorem overlayInv_step (o : OverlayState) (op : OverlayOp) (h : overlayInv o) :
    overlayInv (applyOverlayOp o op) := by
  obtain ⟨hempty, hbound, hpair, hnn⟩ := h
  cases op with
  | showAt =>
    refine ⟨?_, ?_, ?_, ?_⟩
    · show o.segments ++ [{ id := o.nextId, text := "", state := SegState.active }] = [] →
        (true : Bool) = false
      intro hs
      simp at hs
    · show ∀ s ∈ o.segments ++ [{ id := o.nextId, text := "", state := SegState.active }],
        0 ≤ s.id ∧ s.id < o.nextId + 1
      intro s hs
      rcases List.mem_append.mp hs with hs | hs
      · have hb := hbound s hs
        exact ⟨hb.1, by omega⟩
      · rw [List.mem_singleton] at hs
        subst hs
        refine ⟨hnn, ?_⟩
        show o.nextId < o.nextId + 1
        omega
    · show List.Pairwise (fun a b => a.id ≠ b.id)
        (o.segments ++ [{ id := o.nextId, text := "", state := SegState.active }])
      rw [List.pairwise_append]
      refine ⟨hpair, by simp, ?_⟩
      intro a ha b hb
      rw [List.mem_singleton] at hb
      subst hb
      show a.id ≠ o.nextId
      have hb := hbound a ha
      omega
    · show (0 : Int) ≤ o.nextId + 1
      omega
  | showError msg =>
    refine ⟨?_, ?_, ?_, ?_⟩
    · show o.segments ++ [{ id := o.nextId, text := msg, state := SegState.error }] = [] →
        (true : Bool) = false
      intro hs
      simp at hs
    · show ∀ s ∈ o.segments ++ [{ id := o.nextId, text := msg, state := SegState.error }],
        0 ≤ s.id ∧ s.id < o.nextId + 1
      intro s hs
      rcases List.mem_append.mp hs with hs | hs
      · have hb := hbound s hs
        exact ⟨hb.1, by omega⟩
      · rw [List.mem_singleton] at hs
        subst hs
        refine ⟨hnn, ?_⟩
        show o.nextId < o.nextId + 1
        omega
    · show List.Pairwise (fun a b => a.id ≠ b.id)
        (o.segments ++ [{ id := o.nextId, text := msg, state := SegState.error }])
      rw [List.pairwise_append]
      refine ⟨hpair, by simp, ?_⟩
      intro a ha b hb
      rw [List.mem_singleton] at hb
      subst hb
      show a.id ≠ o.nextId
      have hb := hbound a ha
      omega
    · show (0 : Int) ≤ o.nextId + 1
      omega
  | setText t =>
    have hid := setLastText_map_id o.segments t
    refine ⟨?_, ?_, ?_, hnn⟩
    · intro hs
      apply hempty
      have : o.segments.map (fun s => s.id) = [] := by
        rw [← hid]
        simp [applyOverlayOp, set_text] at hs
        simp [hs]
      exact List.map_eq_nil_iff.mp this
    · intro s hs
      simp only [applyOverlayOp, set_text] at hs
      have : s.id ∈ (setLastText o.segments t).map (fun s => s.id) :=
        List.mem_map_of_mem _ hs
      rw [hid] at this
      obtain ⟨s', hs', hids⟩ := List.mem_map.mp this
      rw [← hids]
      exact hbound s' hs'
    · simp only [applyOverlayOp, set_text]
      rw [← List.pairwise_map (f := fun s : Segment => s.id) (R := fun a b => a ≠ b)]
      rw [hid]
      rw [List.pairwise_map]
      exact hpair
  | freeze =>
    have hid : ((freeze_active_segment o).1).segments.map (fun s => s.id) =
        o.segments.map (fun s => s.id) := by
      simp only [freeze_active_segment]
      rw [List.map_reverse, freezeRev_map_id, List.map_reverse, List.reverse_reverse]
    refine ⟨?_, ?_, ?_, hnn⟩
    · intro hs
      apply hempty
      have : o.segments.map (fun s => s.id) = [] := by
        rw [← hid]
        simp only [applyOverlayOp] at hs
        simp [hs]
      exact List.map_eq_nil_iff.mp this
    · intro s hs
      simp only [applyOverlayOp] at hs
      have : s.id ∈ ((freeze_active_segment o).1).segments.map (fun s => s.id) :=
        List.mem_map_of_mem _ hs
      rw [hid] at this
      obtain ⟨s', hs', hids⟩ := List.mem_map.mp this
      rw [← hids]
      exact hbound s' hs'
    · simp only [applyOverlayOp]
      rw [← List.pairwise_map (f := fun s : Segment => s.id) (R := fun a b => a ≠ b)]
      rw [hid]
      rw [List.pairwise_map]
      exact hpair
  | complete segId =>
    refine ⟨?_, ?_, ?_, ?_⟩
    · show (complete_segment o segId).segments = [] →
        (complete_segment o segId).visible = false
      simp only [complete_segment]
      split
      · intro _
        rfl
      · rename_i hfe
        intro h
        exact absurd h hfe
    · show ∀ s ∈ (complete_segment o segId).segments,
        0 ≤ s.id ∧ s.id < (complete_segment o segId).nextId
      intro s hs
      rw [complete_segment_segments] at hs
      rw [complete_segment_nextId]
      exact hbound s (List.mem_of_mem_filter hs)
    · show List.Pairwise (fun a b => a.id ≠ b.id) (complete_segment o segId).segments
      rw [complete_segment_segments]
      exact List.Pairwise.sublist (List.filter_sublist _) hpair
    · show (0 : Int) ≤ (complete_segment o segId).nextId
      rw [complete_segment_nextId]
      exact hnn
  | dismissAll =>
    exact ⟨fun _ => rfl, by simp [applyOverlayOp, dismiss], by simp [applyOverlayOp, dismiss], hnn⟩

/-- Every reachable overlay state satisfies the registry invariant. -/
theorem overlayInv_reachable (o : OverlayState) (h : OverlayReachable o) :
    overlayInv o := by
  induction h with
  | init =>
    refine ⟨fun _ => rfl, ?_, ?_, ?_⟩ <;> simp [initOverlay, overlayInv]
  | step op _ ih => exact overlayInv_step _ op ih

/-- C7: in any reachable registry state, starting a new recording while a
previous segment is still processing appends the new active segment after
the existing ones (insertion order = display order, both coexist);
completing a segment by id removes exactly that segment, leaving every
other segment untouched; and a registry holding zero segments always has
the overlay hidden. -/
theorem segment_registry_coexistence (o : OverlayState)
    (h : OverlayReachable o) :
    ((∃ s ∈ o.segments, s.state = SegState.processing) →
      (show_at_cursor o).segments =
        o.segments ++ [{ id := o.nextId, text := "", state := SegState.active }])
    ∧ (∀ s ∈ o.segments,
        (complete_segment o s.id).segments =
            o.segments.filter (fun x => x.id ≠ s.id)
          ∧ s ∉ (complete_segment o s.id).segments
          ∧ ∀ x ∈ o.segments, x ≠ s → x ∈ (complete_segment o s.id).segments)
    ∧ (o.segments = [] → o.visible = false) := by
  obtain ⟨hempty, hbound, hpair, hnn⟩ := overlayInv_reachable o h
  refine ⟨fun _ => rfl, ?_, hempty⟩
  intro s hs
  refine ⟨complete_segment_segments o s.id, ?_, ?_⟩
  · rw [complete_segment_segments]
    intro habs
    have := (List.mem_filter.mp habs).2
    simp at this
  · intro x hx hxs
    have hneq : x.id ≠ s.id := by
      have hsymm : Symmetric (fun a b : Segment => a.id ≠ b.id) := by
        intro a b hab
        exact fun hba => hab hba.symm
      exact List.Pairwise.forall hsymm hpair hx hs hxs
    rw [complete_segment_segments]
    rw [List.mem_filter]
    refine ⟨hx, ?_⟩
    simpa using hneq

/-- Witness for C7: with one processing segment on display, a new
recording appends a second, coexisting active segment after it. -/
theorem segment_registry_coexistence_witness :
    (show_at_cursor overlayP).segments =
      overlayP.segments ++
        [{ id := overlayP.nextId, text := "", state := SegState.active }] :=
  (segment_registry_coexistence overlayP
      (OverlayReachable.step OverlayOp.freeze
        (OverlayReachable.step OverlayOp.showAt OverlayReachable.init))).1
    ⟨{ id := 0, text := "", state := SegState.processing }, by decide, rfl⟩

/-- Source `freeze_active_segment` finds nothing to freeze in a list without an
active segment. -/
theorem freezeRev_no_active (l : List Segment)
    (h : ∀ s ∈ l, s.state ≠ SegState.active) : freezeRev l = (l, -1) := by
  induction l with
  | nil => rfl
  | cons s rest ih =>
    simp only [freezeRev]
    rw [if_neg (h s (List.mem_cons_self s rest))]
    rw [ih (fun x hx => h x (List.mem_cons_of_mem s hx))]

/-- C10: in any reachable registry state with no active segment,
`freeze_active_segment` returns the sentinel `-1` and changes nothing,
`complete_segment (-1)` removes no segment and changes nothing, and an
`on_stop_recording` arriving at such an overlay leaves the overlay
untouched. -/
theorem freeze_without_active_is_noop (o : OverlayState)
    (h : OverlayReachable o)
    (hna : ∀ s ∈ o.segments, s.state ≠ SegState.active) :
    freeze_active_segment o = (o, -1)
    ∧ complete_segment o (-1) = o
    ∧ (∀ a : AppState, a.overlay = o → (on_stop_recording a).overlay = o) := by
  obtain ⟨hempty, hbound, hpair, hnn⟩ := overlayInv_reachable o h
  have hfreeze : freeze_active_segment o = (o, -1) := by
    have hrev : ∀ s ∈ o.segments.reverse, s.state ≠ SegState.active := by
      intro s hs
      exact hna s (List.mem_reverse.mp hs)
    simp only [freeze_active_segment, freezeRev_no_active _ hrev,
      List.reverse_reverse]
  have hcomplete : complete_segment o (-1) = o := by
    have hfilter : o.segments.filter (fun s => s.id ≠ (-1 : Int)) = o.segments := by
      rw [List.filter_eq_self]
      intro s hs
      have := (hbound s hs).1
      simp only [decide_eq_true_eq]
      omega
    simp only [complete_segment, hfilter]
    split
    · rename_i hnil
      have hv := hempty hnil
      rw [← hv]
    · rfl
  refine ⟨hfreeze, hcomplete, ?_⟩
  intro a ha
  unfold on_stop_recording
  split
  · exact ha
  · simp only [ha, hfreeze]

/-- Witness for C10 on a registry holding one processing segment. -/
theorem freeze_without_active_is_noop_witness :
    freeze_active_segment overlayP = (overlayP, -1)
    ∧ complete_segment overlayP (-1) = overlayP :=
  ⟨(freeze_without_active_is_noop overlayP
      (OverlayReachable.step OverlayOp.freeze
        (OverlayReachable.step OverlayOp.showAt OverlayReachable.init))
      (by decide)).1,
   (freeze_without_active_is_noop overlayP
      (OverlayReachable.step OverlayOp.freeze
        (OverlayReachable.step OverlayOp.showAt OverlayReachable.init))
      (by decide)).2.1⟩

/-- C9 counterexample: in the reachable registry state holding an active
segment followed by an error segment, `set_text` changes nothing at all —
in particular the most-recent active segment's text is *not* updated. -/
theorem set_text_misses_nonlast_active :
    OverlayReachable overlayAE
    ∧ (∃ s ∈ overlayAE.segments, s.state = SegState.active)
    ∧ set_text overlayAE ("x") = overlayAE
    ∧ (∀ s ∈ overlayAE.segments, s.text ≠ "x") := by
  refine ⟨?_, by decide, by decide, by decide⟩
  exact OverlayReachable.step (OverlayOp.showError ("boom"))
    (OverlayReachable.step OverlayOp.showAt OverlayReachable.init)

/-- Source `setLastText` rewrites the final element's text iff that element is
active, and is the identity otherwise. -/
theorem setLastText_eq (l : List Segment) (t : String) :
    (∀ s, l.getLast? = some s → s.state = SegState.active →
      setLastText l t = l.dropLast ++ [{ s with text := t }])
    ∧ (∀ s, l.getLast? = some s → s.state ≠ SegState.active →
      setLastText l t = l)
    ∧ (l.getLast? = none → setLastText l t = l) := by
  induction l with
  | nil =>
    refine ⟨?_, ?_, ?_⟩
    · intro s hs
      simp at hs
    · intro s hs
      simp at hs
    · intro _
      rfl
  | cons a rest ih =>
    cases rest with
    | nil =>
      refine ⟨?_, ?_, ?_⟩
      · intro s hs hact
        have hsa : a = s := by simpa using hs
        subst hsa
        simp [setLastText, hact]
      · intro s hs hact
        have hsa : a = s := by simpa using hs
        subst hsa
        simp [setLastText, hact]
      · intro hs
        simp at hs
    | cons b rest' =>
      obtain ⟨ih1, ih2, ih3⟩ := ih
      refine ⟨?_, ?_, ?_⟩
      · intro s hs hact
        rw [List.getLast?_cons_cons] at hs
        show a :: setLastText (b :: rest') t =
          (a :: b :: rest').dropLast ++ [{ s with text := t }]
        rw [List.dropLast_cons₂]
        rw [ih1 s hs hact]
        simp
      · intro s hs hact
        rw [List.getLast?_cons_cons] at hs
        show a :: setLastText (b :: rest') t = a :: b :: rest'
        rw [ih2 s hs hact]
      · intro hs
        rw [List.getLast?_cons_cons] at hs
        show a :: setLastText (b :: rest') t = a :: b :: rest'
        rw [ih3 hs]

/-- C9 (amended): `set_active_text` updates the text of the *last*
segment iff that segment is active — in which case it is indeed the
most-recent active segment — leaving every other segment's id, text and
state unchanged; when the last segment is not active (even though an
earlier active segment may exist) or the registry is empty, it changes
nothing. -/
theorem set_text_updates_last_iff_active (o : OverlayState) (t : String) :
    (∀ s, o.segments.getLast? = some s → s.state = SegState.active →
      (set_text o t).segments = o.segments.dropLast ++ [{ s with text := t }])
    ∧ (∀ s, o.segments.getLast? = some s → s.state ≠ SegState.active →
      set_text o t = o)
    ∧ (o.segments.getLast? = none → set_text o t = o) := by
  obtain ⟨h1, h2, h3⟩ := setLastText_eq o.segments t
  refine ⟨?_, ?_, ?_⟩
  · intro s hs hact
    show setLastText o.segments t = _
    exact h1 s hs hact
  · intro s hs hact
    show { o with segments := setLastText o.segments t } = o
    rw [h2 s hs hact]
  · intro hs
    show { o with segments := setLastText o.segments t } = o
    rw [h3 hs]

/-- Witness for the amended C9: a trailing active segment receives the
interim text. -/
theorem set_text_updates_last_iff_active_witness :
    (set_text (show_at_cursor initOverlay) ("hi")).segments =
      (show_at_cursor initOverlay).segments.dropLast ++
        [{ id := 0, text := "hi", state := SegState.active }] :=
  (set_text_updates_last_iff_active (show_at_cursor initOverlay) ("hi")).1
    { id := 0, text := "", state := SegState.active } (by decide) rfl

/-- C4 counterexample: hold left-ctrl, also press right-ctrl, then
release left-ctrl.  Right-ctrl is still physically held, so the set of
physically held canonical modifiers is `{"ctrl"}`, but the listener's
tracked set is empty: the single `discard` removed the canonical name
although another variant of it was still down. -/
theorem modifier_tracking_counterexample :
    (runMods listener0 [ModEvent.press PhysMod.ctrlL, ModEvent.press PhysMod.ctrlR,
        ModEvent.release PhysMod.ctrlL]).activeModifiers = ∅
    ∧ physRun ∅ [ModEvent.press PhysMod.ctrlL, ModEvent.press PhysMod.ctrlR,
        ModEvent.release PhysMod.ctrlL] = {PhysMod.ctrlR}
    ∧ Finset.image canonical {PhysMod.ctrlR} = {"ctrl"}
    ∧ (∅ : Finset String) ≠ {"ctrl"} := by
  refine ⟨by decide, by decide, by decide, by decide⟩

/-- A modifier press adds exactly the canonical name. -/
theorem listenerModStep_press (s : ListenerState) (m : PhysMod)
    (hc : s.captureMode = false) :
    listenerModStep s (ModEvent.press m) =
      { s with activeModifiers := insert (canonical m) s.activeModifiers } := by
  simp [listenerModStep, onPress, hc, isModifierOf]

/-- A modifier release removes exactly the canonical name. -/
theorem listenerModStep_release (s : ListenerState) (m : PhysMod)
    (hc : s.captureMode = false) :
    listenerModStep s (ModEvent.release m) =
      { s with activeModifiers := s.activeModifiers.erase (canonical m) } := by
  simp [listenerModStep, onRelease, hc, isModifierOf]

/-- Erasing one variant commutes with the canonical image when no other
variant of the same canonical modifier is held. -/
theorem image_canonical_erase (p : Finset PhysMod) (m : PhysMod)
    (hsafe : ∀ m' ∈ p, canonical m' = canonical m → m' = m) :
    (p.erase m).image canonical = (p.image canonical).erase (canonical m) := by
  ext c
  simp only [Finset.mem_image, Finset.mem_erase]
  constructor
  · rintro ⟨m', ⟨hne, hmem⟩, rfl⟩
    refine ⟨?_, m', hmem, rfl⟩
    intro heq
    exact hne (hsafe m' hmem heq)
  · rintro ⟨hcne, m', hmem, rfl⟩
    refine ⟨m', ⟨?_, hmem⟩, rfl⟩
    intro heq
    subst heq
    exact hcne rfl

/-- On safe runs the tracked set stays the canonical image of the
physically held set. -/
theorem tracked_eq_image_of_safe (es : List ModEvent) (s : ListenerState)
    (p : Finset PhysMod) (hc : s.captureMode = false)
    (heq : s.activeModifiers = p.image canonical) (hsafe : SafeRun p es) :
    (runMods s es).activeModifiers = (physRun p es).image canonical := by
  induction es generalizing s p with
  | nil => simpa [runMods, physRun] using heq
  | cons e rest ih =>
    obtain ⟨hsr, hrest⟩ := hsafe
    cases e with
    | press m =>
      have hstep := listenerModStep_press s m hc
      show (runMods (listenerModStep s (ModEvent.press m)) rest).activeModifiers =
        (physRun (physStep p (ModEvent.press m)) rest).image canonical
      apply ih
      · rw [hstep]
        exact hc
      · rw [hstep]
        show insert (canonical m) s.activeModifiers = (insert m p).image canonical
        rw [heq, Finset.image_insert]
      · exact hrest
    | release m =>
      have hstep := listenerModStep_release s m hc
      show (runMods (listenerModStep s (ModEvent.release m)) rest).activeModifiers =
        (physRun (physStep p (ModEvent.release m)) rest).image canonical
      apply ih
      · rw [hstep]
        exact hc
      · rw [hstep]
        show s.activeModifiers.erase (canonical m) = (p.erase m).image canonical
        rw [heq, image_canonical_erase p m hsr]
      · exact hrest

/-- Source `_on_press` leaves every tracked modifier in place: `onPressMain`
never touches the modifier set. -/
theorem onPressMain_activeModifiers (s : ListenerState) (keyStr : String) :
    (onPressMain s keyStr).1.activeModifiers = s.activeModifiers := by
  unfold onPressMain
  split_ifs
  · rfl
  · rfl
  · rfl
  · rfl
  · rfl

/-- In the non-capture, non-modifier branch, `_on_release` touches only
the down-flags. -/
theorem onRelease_activeModifiers (s : ListenerState) (k : PKey) :
    (onRelease s k).1.activeModifiers = s.activeModifiers
    ∨ ∃ m, k = PKey.mod m ∧
        (onRelease s k).1.activeModifiers =
          s.activeModifiers.erase (canonical m) := by
  unfold onRelease
  split_ifs with hcap
  · exact Or.inl rfl
  · cases k with
    | esc => left; simp only [isModifierOf]; split_ifs <;> rfl
    | mod m =>
      right
      exact ⟨m, rfl, rfl⟩
    | ch c => left; simp only [isModifierOf]; split_ifs <;> rfl
    | vk n => left; simp only [isModifierOf]; split_ifs <;> rfl
    | named nm => left; simp only [isModifierOf]; split_ifs <;> rfl

/-- C4 (amended): left/right variants collapse to one canonical name, so
for every run in which a variant is only ever released while no other
variant of the same canonical modifier is held, the tracked modifier set
equals exactly the canonical image of the physically held set; moreover —
unconditionally — a press never removes a tracked modifier, and a
canonical modifier is removed only by a release event of one of its own
variants, never inferred. -/
theorem modifier_tracking_amended (es : List ModEvent) (s : ListenerState)
    (p : Finset PhysMod) (hc : s.captureMode = false)
    (heq : s.activeModifiers = p.image canonical) (hsafe : SafeRun p es) :
    (runMods s es).activeModifiers = (physRun p es).image canonical
    ∧ (∀ (s' : ListenerState) (k : PKey) (c : String),
        c ∈ s'.activeModifiers → c ∈ (onPress s' k).1.activeModifiers)
    ∧ (∀ (s' : ListenerState) (k : PKey) (c : String),
        c ∈ s'.activeModifiers → c ∉ (onRelease s' k).1.activeModifiers →
          ∃ m, k = PKey.mod m ∧ canonical m = c) := by
  refine ⟨tracked_eq_image_of_safe es s p hc heq hsafe, ?_, ?_⟩
  · intro s' k c hmem
    unfold onPress
    split_ifs
    · exact hmem
    · exact hmem
    · cases hm : isModifierOf k with
      | some cm =>
        simp only []
        exact Finset.mem_insert_of_mem hmem
      | none =>
        simp only []
        rw [onPressMain_activeModifiers]
        exact hmem
  · intro s' k c hmem hnot
    rcases onRelease_activeModifiers s' k with hsame | ⟨m, rfl, herase⟩
    · rw [hsame] at hnot
      exact absurd hmem hnot
    · refine ⟨m, rfl, ?_⟩
      rw [herase] at hnot
      by_contra hne
      exact hnot (Finset.mem_erase.mpr ⟨fun hcm => hne hcm.symm, hmem⟩)

/-- Witness for the amended C4: a clean press-release of left-ctrl keeps
the tracked set equal to the physically held canonical set. -/
theorem modifier_tracking_amended_witness :
    (runMods listener0 [ModEvent.press PhysMod.ctrlL,
        ModEvent.release PhysMod.ctrlL]).activeModifiers =
      (physRun ∅ [ModEvent.press PhysMod.ctrlL,
        ModEvent.release PhysMod.ctrlL]).image canonical :=
  (modifier_tracking_amended
      [ModEvent.press PhysMod.ctrlL, ModEvent.release PhysMod.ctrlL]
      listener0 ∅ rfl (by decide)
      ⟨trivial, by intro m' hm' _; simp [physStep] at hm'; exact hm', trivial⟩).1

/-- C2 counterexample: a primary combo configured exactly as the
hard-coded settings chord ctrl+shift+alt+q matches the press (main key
matches, tracked modifiers exactly equal, down-flag clear), yet the
press fires `toggle_settings` and not the primary `pressed` event. -/
theorem combo_fire_iff_counterexample :
    matchesCombo listenerQ.activeModifiers listenerQ.primaryCombo
        (key_to_str (PKey.ch ("q"))) = true
    ∧ listenerQ.primaryDown = false
    ∧ listenerQ.captureMode = false
    ∧ (onPress listenerQ (PKey.ch ("q"))).2 = [HotkeySignal.toggle_settings]
    ∧ HotkeySignal.hotkey_pressed ∉ (onPress listenerQ (PKey.ch ("q"))).2 := by
  refine ⟨by decide, by decide, by decide, by decide, by decide⟩

/-- Exact firing condition of the three `pressed` signals: a press fires
a combo iff it is not Escape, capture mode is off, the key is not a
modifier, the press is not the hard-coded settings chord, no
earlier-checked combo also fires, the combo matches exactly, and (for
primary/secondary) the down-flag is clear. -/
theorem onPress_emits (s : ListenerState) (k : PKey) :
    (HotkeySignal.hotkey_pressed ∈ (onPress s k).2 ↔
      (k ≠ PKey.esc ∧ s.captureMode = false ∧ isModifierOf k = none ∧
        ¬(key_to_str k = "q" ∧ s.activeModifiers = settingsChordMods) ∧
        matchesCombo s.activeModifiers s.primaryCombo (key_to_str k) = true ∧
        s.primaryDown = false))
    ∧ (HotkeySignal.secondary_hotkey_pressed ∈ (onPress s k).2 ↔
      (k ≠ PKey.esc ∧ s.captureMode = false ∧ isModifierOf k = none ∧
        ¬(key_to_str k = "q" ∧ s.activeModifiers = settingsChordMods) ∧
        ¬(matchesCombo s.activeModifiers s.primaryCombo (key_to_str k) = true ∧
          s.primaryDown = false) ∧
        matchesCombo s.activeModifiers s.secondaryCombo (key_to_str k) = true ∧
        s.secondaryDown = false))
    ∧ (HotkeySignal.correction_hotkey_pressed ∈ (onPress s k).2 ↔
      (k ≠ PKey.esc ∧ s.captureMode = false ∧ isModifierOf k = none ∧
        ¬(key_to_str k = "q" ∧ s.activeModifiers = settingsChordMods) ∧
        ¬(matchesCombo s.activeModifiers s.primaryCombo (key_to_str k) = true ∧
          s.primaryDown = false) ∧
        ¬(matchesCombo s.activeModifiers s.secondaryCombo (key_to_str k) = true ∧
          s.secondaryDown = false) ∧
        matchesCombo s.activeModifiers s.correctionCombo (key_to_str k) = true)) := by
  by_cases hesc : k = PKey.esc
  · subst hesc
    refine ⟨?_, ?_, ?_⟩ <;> simp [onPress]
  · by_cases hcap : s.captureMode = true
    · refine ⟨?_, ?_, ?_⟩ <;> simp [onPress, hesc, hcap]
    · have hcap' : s.captureMode = false := by
        cases hcm : s.captureMode
        · rfl
        · exact absurd hcm hcap
      cases hmod : isModifierOf k with
      | some cm =>
        refine ⟨?_, ?_, ?_⟩ <;> simp [onPress, hesc, hcap', hmod]
      | none =>
        have honp : onPress s k = onPressMain s (key_to_str k) := by
          simp [onPress, hesc, hcap', hmod]
        rw [honp]
        unfold onPressMain
        split_ifs with h1 h2 h3 h4 <;>
          exact ⟨by simp_all, by simp_all, by simp_all⟩

/-- Firing a `pressed` signal sets the corresponding down-flag;
correction leaves the whole state untouched (so an immediate identical
press fires it again). -/
theorem onPress_flag_effects (s : ListenerState) (k : PKey) :
    (HotkeySignal.hotkey_pressed ∈ (onPress s k).2 →
      (onPress s k).1.primaryDown = true)
    ∧ (HotkeySignal.secondary_hotkey_pressed ∈ (onPress s k).2 →
      (onPress s k).1.secondaryDown = true)
    ∧ (HotkeySignal.correction_hotkey_pressed ∈ (onPress s k).2 →
      (onPress s k).1 = s) := by
  by_cases hesc : k = PKey.esc
  · subst hesc
    refine ⟨?_, ?_, ?_⟩ <;> simp [onPress]
  · by_cases hcap : s.captureMode = true
    · refine ⟨?_, ?_, ?_⟩ <;> simp [onPress, hesc, hcap]
    · have hcap' : s.captureMode = false := by
        cases hcm : s.captureMode
        · rfl
        · exact absurd hcm hcap
      cases hmod : isModifierOf k with
      | some cm =>
        refine ⟨?_, ?_, ?_⟩ <;> simp [onPress, hesc, hcap', hmod]
      | none =>
        have honp : onPress s k = onPressMain s (key_to_str k) := by
          simp [onPress, hesc, hcap', hmod]
        rw [honp]
        unfold onPressMain
        split_ifs with h1 h2 h3 h4 <;>
          exact ⟨by simp_all, by simp_all, by simp_all⟩

/-- A set down-flag blocks the corresponding `pressed` signal: repeated
key-repeat presses while held fire at most once. -/
theorem onPress_blocked_by_flag (s : ListenerState) (k : PKey) :
    (s.primaryDown = true → HotkeySignal.hotkey_pressed ∉ (onPress s k).2)
    ∧ (s.secondaryDown = true →
      HotkeySignal.secondary_hotkey_pressed ∉ (onPress s k).2) := by
  obtain ⟨h1, h2, _⟩ := onPress_emits s k
  constructor
  · intro hd hin
    have := (h1.mp hin).2.2.2.2.2
    rw [hd] at this
    cases this
  · intro hd hin
    have := (h2.mp hin).2.2.2.2.2.2
    rw [hd] at this
    cases this

/-- In the non-capture, non-modifier branch, a release clears a set
down-flag iff the released key matches that combo's main key. -/
theorem onRelease_down_flags (s : ListenerState) (k : PKey)
    (hcap : s.captureMode = false) (hmod : isModifierOf k = none) :
    (onRelease s k).1.primaryDown =
      (s.primaryDown && !(releaseMatches s.primaryCombo (key_to_str k)))
    ∧ (onRelease s k).1.secondaryDown =
      (s.secondaryDown && !(releaseMatches s.secondaryCombo (key_to_str k))) := by
  cases hp : s.primaryDown <;> cases hq : s.secondaryDown <;>
    cases hrp : releaseMatches s.primaryCombo (key_to_str k) <;>
    cases hrq : releaseMatches s.secondaryCombo (key_to_str k) <;>
      simp [onRelease, hcap, hmod, hp, hq, hrp, hrq]

/-- C2 (amended): a combo's `pressed` event fires iff the pressed key is
not Escape, capture mode is off, the key is not a modifier, the press is
not the hard-coded ctrl+shift+alt+q settings chord, no earlier-checked
combo (order: primary, secondary, correction) also fires, the key
normalizes to the combo's main key with the tracked modifier set exactly
equal to its modifier set, and — for primary and secondary — the
down-flag is clear.  Firing sets the down-flag, a set flag blocks
repeats until a matching release clears it, and a matching correction
press fires every time, leaving the state untouched. -/
theorem combo_press_fire_characterization (s : ListenerState) (k : PKey) :
    (HotkeySignal.hotkey_pressed ∈ (onPress s k).2 ↔
      (k ≠ PKey.esc ∧ s.captureMode = false ∧ isModifierOf k = none ∧
        ¬(key_to_str k = "q" ∧ s.activeModifiers = settingsChordMods) ∧
        matchesCombo s.activeModifiers s.primaryCombo (key_to_str k) = true ∧
        s.primaryDown = false))
    ∧ (HotkeySignal.secondary_hotkey_pressed ∈ (onPress s k).2 ↔
      (k ≠ PKey.esc ∧ s.captureMode = false ∧ isModifierOf k = none ∧
        ¬(key_to_str k = "q" ∧ s.activeModifiers = settingsChordMods) ∧
        ¬(matchesCombo s.activeModifiers s.primaryCombo (key_to_str k) = true ∧
          s.primaryDown = false) ∧
        matchesCombo s.activeModifiers s.secondaryCombo (key_to_str k) = true ∧
        s.secondaryDown = false))
    ∧ (HotkeySignal.correction_hotkey_pressed ∈ (onPress s k).2 ↔
      (k ≠ PKey.esc ∧ s.captureMode = false ∧ isModifierOf k = none ∧
        ¬(key_to_str k = "q" ∧ s.activeModifiers = settingsChordMods) ∧
        ¬(matchesCombo s.activeModifiers s.primaryCombo (key_to_str k) = true ∧
          s.primaryDown = false) ∧
        ¬(matchesCombo s.activeModifiers s.secondaryCombo (key_to_str k) = true ∧
          s.secondaryDown = false) ∧
        matchesCombo s.activeModifiers s.correctionCombo (key_to_str k) = true))
    ∧ (HotkeySignal.hotkey_pressed ∈ (onPress s k).2 →
        (onPress s k).1.primaryDown = true)
    ∧ (HotkeySignal.secondary_hotkey_pressed ∈ (onPress s k).2 →
        (onPress s k).1.secondaryDown = true)
    ∧ (s.primaryDown = true → HotkeySignal.hotkey_pressed ∉ (onPress s k).2)
    ∧ (s.secondaryDown = true →
        HotkeySignal.secondary_hotkey_pressed ∉ (onPress s k).2)
    ∧ (HotkeySignal.correction_hotkey_pressed ∈ (onPress s k).2 →
        (onPress s k).1 = s)
    ∧ (s.captureMode = false → isModifierOf k = none →
        (onRelease s k).1.primaryDown =
          (s.primaryDown && !(releaseMatches s.primaryCombo (key_to_str k)))
        ∧ (onRelease s k).1.secondaryDown =
          (s.secondaryDown && !(releaseMatches s.secondaryCombo (key_to_str k)))) := by
  obtain ⟨e1, e2, e3⟩ := onPress_emits s k
  obtain ⟨f1, f2, f3⟩ := onPress_flag_effects s k
  obtain ⟨b1, b2⟩ := onPress_blocked_by_flag s k
  exact ⟨e1, e2, e3, f1, f2, b1, b2, f3,
    fun hcap hmod => onRelease_down_flags s k hcap hmod⟩

/-- Witness for the amended C2: the ctrl+t primary combo fires on a
matching press with exactly ctrl held. -/
theorem combo_press_fire_characterization_witness :
    HotkeySignal.hotkey_pressed ∈ (onPress listenerT (PKey.ch ("t"))).2 :=
  (combo_press_fire_characterization listenerT (PKey.ch ("t"))).1.mpr (by decide)

end VoiceInput
